import Mathlib

/-!
Verification of the field-line tracer core of VectorFieldPlot (vfp.py)
against its specification.  The Python source is shallowly embedded over
the real numbers: machine floats become `ℝ`, `math.hypot` becomes
`Real.sqrt` of the sum of squares, Python's float `%` becomes the
floor-based `pymod`, and code paths that raise exceptions (caught by the
caller's `try/except`) are modelled with `Option`.
-/

namespace VFP

open scoped Classical

/-- A 2D point / vector, `scipy.array((x, y))` in the source. -/
abbrev Point := ℝ × ℝ

/-- Componentwise vector addition (`numpy` array `+`). -/
def padd (u v : Point) : Point := (u.1 + v.1, u.2 + v.2)

/-- Componentwise vector subtraction (`numpy` array `-`). -/
def psub (u v : Point) : Point := (u.1 - v.1, u.2 - v.2)

/-- Source `math.hypot(x, y)`. -/
noncomputable def hypot (x y : ℝ) : ℝ := Real.sqrt (x ^ 2 + y ^ 2)

/-- Source `vabs(x) = hypot(x[0], x[1])`: the euclidean norm of a 2D vector. -/
noncomputable def vabs (p : Point) : ℝ := hypot (p.1) (p.2)

/-- Python's float modulo `a % b` (floor-based, result has the sign of `b`). -/
noncomputable def pymod (a b : ℝ) : ℝ := a - b * (Int.floor (a / b) : ℝ)

/-- Source `angle_dif(a1, a2) = ((a2 - a1 + pi) % (2 * pi)) - pi` (vfp.py line 89). -/
noncomputable def angle_dif (a1 a2 : ℝ) : ℝ :=
  pymod (a2 - a1 + Real.pi) (2 * Real.pi) - Real.pi

/-- Basic range facts about `pymod` for a positive modulus. -/
theorem pymod_mem (a b : ℝ) (hb : 0 < b) : 0 ≤ pymod a b ∧ pymod a b < b := by
  have hb0 : b ≠ 0 := ne_of_gt hb
  have h : pymod a b = b * Int.fract (a / b) := by
    unfold pymod Int.fract
    rw [mul_sub, mul_comm b (a / b), div_mul_cancel₀ a hb0]
  constructor
  · rw [h]
    exact mul_nonneg hb.le (Int.fract_nonneg _)
  · rw [h]
    calc b * Int.fract (a / b) < b * 1 :=
          mul_lt_mul_of_pos_left (Int.fract_lt_one _) hb
    _ = b := mul_one b

/-- The loop of Bulirsch's `cel` (vfp.py lines 119-134).  The state is the
tuple `(k, kc, p, a, b, m)` together with the round counter `i`; each round
first runs the updates of the loop body, then either breaks (tolerance met,
or `i >= 10`) or recomputes `kc` and `k` and goes on with `i + 1`. -/
noncomputable def celLoop (k kc p a b m : ℝ) (i : ℕ) : ℝ :=
  let f := a
  let a' := a + b / p
  let g := k / p
  let b' := 2 * (b + f * g)
  let p' := p + g
  let g' := m
  let m' := m + kc
  if |g' - kc| ≤ g' * 1e-9 ∨ 10 ≤ i then
    Real.pi * 0.5 * (a' * m' + b') / (m' * (m' + p'))
  else
    celLoop (2 * Real.sqrt k * m') (2 * Real.sqrt k) p' a' b' m' (i + 1)
termination_by 11 - i
decreasing_by
  simp only [not_or, not_le] at *
  omega

/-- Fuel-limited variant of `celLoop`: `none` when the given number of rounds
is exhausted before the loop breaks.  Used to state the round bound. -/
noncomputable def celLoopFuel : ℕ → ℝ → ℝ → ℝ → ℝ → ℝ → ℝ → ℕ → Option ℝ
  | 0, _, _, _, _, _, _, _ => none
  | fuel + 1, k, kc, p, a, b, m, i =>
    let f := a
    let a' := a + b / p
    let g := k / p
    let b' := 2 * (b + f * g)
    let p' := p + g
    let g' := m
    let m' := m + kc
    if |g' - kc| ≤ g' * 1e-9 ∨ 10 ≤ i then
      some (Real.pi * 0.5 * (a' * m' + b') / (m' * (m' + p')))
    else
      celLoopFuel fuel (2 * Real.sqrt k * m') (2 * Real.sqrt k) p' a' b' m' (i + 1)

/-- Source `cel(kc, p, a, b)` (vfp.py lines 93-136): Bulirsch's complete elliptic
integral.  The Python function returns `float('nan')` when `kc == 0`; the
NaN outcome is modelled as `none`. -/
noncomputable def cel (kc p a b : ℝ) : Option ℝ :=
  if kc = 0 then none
  else
    let k := |kc|
    let kc' := |kc|
    let m : ℝ := 1
    if 0 < p then
      let p' := Real.sqrt p
      let b' := b / p'
      some (celLoop k kc' p' a b' m 0)
    else
      let f := kc' * kc'
      let g := 1 - p
      let q := (1 - f) * (b - a * p)
      let f' := f - p
      let p' := Real.sqrt (f' / g)
      let a' := (a - b) / g
      let b' := a' * p' - q / (g * g * p')
      some (celLoop k kc' p' a' b' m 0)

/-- Variant of `cel` with the loop run on exactly 11 rounds of fuel. -/
noncomputable def celFuel (kc p a b : ℝ) : Option ℝ :=
  if kc = 0 then none
  else
    let k := |kc|
    let kc' := |kc|
    let m : ℝ := 1
    if 0 < p then
      let p' := Real.sqrt p
      let b' := b / p'
      celLoopFuel 11 k kc' p' a b' m 0
    else
      let f := kc' * kc'
      let g := 1 - p
      let q := (1 - f) * (b - a * p)
      let f' := f - p
      let p' := Real.sqrt (f' / g)
      let a' := (a - b) / g
      let b' := a' * p' - q / (g * g * p')
      celLoopFuel 11 k kc' p' a' b' m 0

/-- The numeric value of `cel` as its callers use it; every call site in the
source floors `kc` at `1e-16`, so the `none` (NaN) case never arises there. -/
noncomputable def celValue (kc p a b : ℝ) : ℝ := (cel kc p a b).getD 0

/-- Fuel bound: `11 - i` rounds of fuel always suffice for `celLoop`: the loop breaks no
later than the round in which `i` has reached 10. -/
theorem celLoopFuel_eq_celLoop (fuel : ℕ) :
    ∀ (i : ℕ) (k kc p a b m : ℝ), i ≤ 10 → 11 ≤ fuel + i →
      celLoopFuel fuel k kc p a b m i = some (celLoop k kc p a b m i) := by
  induction fuel with
  | zero => intro i k kc p a b m hi h; omega
  | succ n ih =>
    intro i k kc p a b m hi h
    rw [celLoop]
    simp only [celLoopFuel]
    split
    · rfl
    · rename_i hcond
      simp only [not_or, not_le] at hcond
      exact ih (i + 1) _ _ _ _ _ _ (by omega) (by omega)

/-- Source `math.atanh`: inverse hyperbolic tangent.  (All call sites in the source
guard `|arg| < 1`; outside that domain Python raises, which callers catch.) -/
noncomputable def atanh (x : ℝ) : ℝ := Real.log ((1 + x) / (1 - x)) / 2

/-- One field element: the tagged variants of vfp.py's
`['type', {params}]` pairs, as dispatched by `Field.F` and `Field.V`. -/
inductive Element where
  | homogeneous (Fx Fy : ℝ)
  | monopole (x y Q : ℝ)
  | dipole (x y px py : ℝ)
  | dipole2d (x y px py : ℝ)
  | quadrupole (x y Qxx Qxy Qyy : ℝ)
  | wire (x y I : ℝ)
  | charged_wire (x y q : ℝ)
  | charged_line (x0 y0 x1 y1 Q : ℝ)
  | charged_plane (x0 y0 x1 y1 q : ℝ)
  | charged_rect (x0 y0 x1 y1 Lz Q : ℝ)
  | charged_disc (x0 y0 x1 y1 Q : ℝ)
  | sheetcurrent (x0 y0 x1 y1 I : ℝ)
  | ringcurrent (x y phi R I : ℝ)
  | coil (x y phi R Lhalf I : ℝ)
  | custom (f F : Option (Point → Point)) (V : Option (Point → ℝ))
  | potential (V : ℝ)

namespace Field

/-- Source `Field.F_homogeneous` (vfp.py line 1707). -/
def F_homogeneous (_xy : Point) (Fx Fy : ℝ) : Point := (Fx, Fy)

/-- Source `Field.F_monopole` (vfp.py lines 1712-1720). -/
noncomputable def F_monopole (xy : Point) (x y Q : ℝ) : Point :=
  let r0 := xy.1 - x
  let r1 := xy.2 - y
  let d := hypot r0 r1
  if d ≠ 0 then
    let pre := Q / (4 * Real.pi * d ^ 3)
    (pre * r0, pre * r1)
  else (0, 0)

/-- Source `Field.F_dipole` (vfp.py lines 1722-1733).  At its own position
(`d = 0`) it returns `(px, py)`: the deliberate unphysical sign. -/
noncomputable def F_dipole (xy : Point) (x y px py : ℝ) : Point :=
  let r0 := xy.1 - x
  let r1 := xy.2 - y
  let d := hypot r0 r1
  let rp := r0 * px + r1 * py
  if d ≠ 0 then
    let pre := 0.25 / (Real.pi * d ^ 5)
    (pre * (3 * rp * r0 - d * d * px), pre * (3 * rp * r1 - d * d * py))
  else
    (px, py)

/-- Source `Field.F_dipole2d` (vfp.py lines 1735-1747). -/
noncomputable def F_dipole2d (xy : Point) (x y px py : ℝ) : Point :=
  let r0 := xy.1 - x
  let r1 := xy.2 - y
  let rr := r0 * r0 + r1 * r1
  let rp := r0 * px + r1 * py
  if rr ≠ 0 then
    let pre := 0.5 / (Real.pi * rr * rr)
    (pre * (2 * rp * r0 - rr * px), pre * (2 * rp * r1 - rr * py))
  else
    (px, py)

/-- Source `Field.F_quadrupole` (vfp.py lines 1749-1759). -/
noncomputable def F_quadrupole (xy : Point) (x y Qxx Qxy Qyy : ℝ) : Point :=
  let r0 := xy.1 - x
  let r1 := xy.2 - y
  let d := hypot r0 r1
  if d = 0 then (0, 0)
  else
    let Qr0 := Qxx * r0 + Qxy * r1
    let Qr1 := Qxy * r0 + Qyy * r1
    let rQr := r0 * Qr0 + r1 * Qr1
    let pre := 0.25 / (Real.pi * d ^ 7)
    (pre * (2.5 * rQr * r0 - d * d * Qr0), pre * (2.5 * rQr * r1 - d * d * Qr1))

/-- Source `Field.F_wire` (vfp.py lines 1761-1769). -/
noncomputable def F_wire (xy : Point) (x y I : ℝ) : Point :=
  let r0 := xy.1 - x
  let r1 := xy.2 - y
  let rr := r0 * r0 + r1 * r1
  if rr = 0 then (0, 0)
  else
    let pre := I / (2 * Real.pi * rr)
    (-r1 * pre, r0 * pre)

/-- Source `Field.F_charged_wire` (vfp.py lines 1771-1780). -/
noncomputable def F_charged_wire (xy : Point) (x y q : ℝ) : Point :=
  let r0 := xy.1 - x
  let r1 := xy.2 - y
  let rr := r0 * r0 + r1 * r1
  if rr = 0 then (0, 0)
  else
    let pre := q / (2 * Real.pi * rr)
    (pre * r0, pre * r1)

/-- Source `Field.F_charged_line` (vfp.py lines 1782-1810).  A zero-length segment
(`l = 0`) raises `ZeroDivisionError` in Python, caught by `Field.F`'s
`try/except`: modelled as `none`. -/
noncomputable def F_charged_line (xy : Point) (x0 y0 x1 y1 Q : ℝ) : Option Point :=
  let m0 := 0.5 * (x0 + x1)
  let m1 := 0.5 * (y0 + y1)
  let l0 := x1 - m0
  let l1 := y1 - m1
  let l := hypot l0 l1
  if l = 0 then none
  else
    let z0 := l0 / l
    let z1 := l1 / l
    let r0 := z1
    let r1 := -z0
    let xrel := (xy.1 - m0) / l
    let yrel := (xy.2 - m1) / l
    let z := xrel * z0 + yrel * z1
    let r := xrel * r0 + yrel * r1
    let dp := max 1e-16 (hypot r (z + 1))
    let dm := max 1e-16 (hypot r (z - 1))
    let Fr := if r = 0 then 0 else ((z + 1) / dp - (z - 1) / dm) / (2 * r)
    let Fz := 0.5 / dm - 0.5 / dp
    let pre := Q / (4 * Real.pi * l * l)
    some (pre * (Fr * r0 + Fz * z0), pre * (Fr * r1 + Fz * z1))

/-- Source `Field.F_charged_plane` (vfp.py lines 1812-1839).  `l = 0` raises in
Python (`none`).  In the branch `fabs(arg) >= 1` the source assigns the
unused variable `F` and leaves `Fr` unbound, so the final expression raises
`NameError`, caught by `Field.F`'s `try/except`: also modelled as `none`. -/
noncomputable def F_charged_plane (xy : Point) (x0 y0 x1 y1 q : ℝ) : Option Point :=
  let m0 := 0.5 * (x0 + x1)
  let m1 := 0.5 * (y0 + y1)
  let L0 := x1 - m0
  let L1 := y1 - m1
  let l := hypot L0 L1
  if l = 0 then none
  else
    let xrel := (xy.1 - m0) / l
    let yrel := (xy.2 - m1) / l
    let r0 := L0 / l
    let r1 := L1 / l
    let z0 := r1
    let z1 := -r0
    let r := xrel * r0 + yrel * r1
    let z := xrel * z0 + yrel * z1
    let Fz := if z = 0 then 0 else
      0.5 * (Real.arctan ((1 + r) / z) + Real.arctan ((1 - r) / z))
    let arg := 2 * r / (1 + r * r + z * z)
    if 1 ≤ |arg| then none
    else
      let Fr := 0.5 * atanh arg
      let pre := q / (2 * Real.pi * l)
      some (pre * (Fr * r0 + Fz * z0), pre * (Fr * r1 + Fz * z1))

/-- Source `Field.F_charged_rect` (vfp.py lines 1841-1874).  `l = 0` raises, and
`a = 0` fails the source's `assert a != 0`: both modelled as `none`. -/
noncomputable def F_charged_rect (xy : Point) (x0 y0 x1 y1 Lz Q : ℝ) : Option Point :=
  let m0 := 0.5 * (x0 + x1)
  let m1 := 0.5 * (y0 + y1)
  let l0 := x1 - m0
  let l1 := y1 - m1
  let l := hypot l0 l1
  if l = 0 then none
  else
    let a := 0.5 * Lz / l
    if a = 0 then none
    else
      let xrel := (xy.1 - m0) / l
      let yrel := (xy.2 - m1) / l
      let r0 := l0 / l
      let r1 := l1 / l
      let z0 := r1
      let z1 := -r0
      let r := xrel * r0 + yrel * r1
      let z := xrel * z0 + yrel * z1
      let rp := 1 + r
      let rm := 1 - r
      let hp := Real.sqrt (a * a + z * z + rp * rp)
      let hm := Real.sqrt (a * a + z * z + rm * rm)
      let Fz := if z = 0 then 0 else
        (Real.arctan (a * rp / (z * hp)) + Real.arctan (a * rm / (z * hm))) * 0.5 / a
      let arg := 2 * r / (1 + r * r + z * z)
      let Fr := if 1 ≤ |arg| then r
        else (atanh arg + Real.log ((a + hm) / (a + hp))) * 0.5 / a
      let pre := Q / (4 * Real.pi * l * l)
      some (pre * (Fr * r0 + Fz * z0), pre * (Fr * r1 + Fz * z1))

/-- Source `Field.F_charged_disc` (vfp.py lines 1876-1913).  `R = 0` fails the
source's `assert R > 0.`: modelled as `none`. -/
noncomputable def F_charged_disc (xy : Point) (x0 y0 x1 y1 Q : ℝ) : Option Point :=
  let R := 0.5 * hypot (x1 - x0) (y1 - y0)
  if ¬ 0 < R then none
  else
    let xm := 0.5 * (x0 + x1)
    let ym := 0.5 * (y0 + y1)
    let r0 := xy.1 - xm
    let r1 := xy.2 - ym
    let rho0 := (x1 - xm) / R
    let rho1 := (y1 - ym) / R
    let z0 := rho1
    let z1 := -rho0
    let z := r0 * z0 + r1 * z1
    let rho := r0 * rho0 + r1 * rho1
    let rb : ℝ × ℝ × ℝ := if rho < 0 then (-rho0, -rho1, -rho) else (rho0, rho1, rho)
    let zb : ℝ × ℝ × ℝ := if z < 0 then (-z0, -z1, -z) else (z0, z1, z)
    let Rp := rb.2.2 + R
    let Rm := rb.2.2 - R
    let Rpz := hypot Rp zb.2.2
    let Rmz := hypot Rm zb.2.2
    let g := Rm / Rp
    let pre := Q / (Real.pi * R) ^ 2
    let k := max 1e-16 (Rmz / Rpz)
    let Frho := pre * celValue k 1 (-1) 1 * R / Rpz
    let Fz1 := celValue k (g * g) (-1) g * zb.2.2 * R / (Rp * Rpz)
    let Fz2 := if g = 0 then Fz1 + Real.pi / 4
      else if g < 0 then Fz1 + Real.pi / 2 else Fz1
    let Fz := Fz2 * pre
    some (Frho * rb.1 + Fz * zb.1, Frho * rb.2.1 + Fz * zb.2.1)

/-- Source `Field.F_sheetcurrent` (vfp.py lines 1915-1939).  `l = 0` raises in
Python: modelled as `none`. -/
noncomputable def F_sheetcurrent (xy : Point) (x0 y0 x1 y1 I : ℝ) : Option Point :=
  let m0 := 0.5 * (x0 + x1)
  let m1 := 0.5 * (y0 + y1)
  let l0 := x1 - m0
  let l1 := y1 - m1
  let l := hypot l0 l1
  if l = 0 then none
  else
    let xrel := (xy.1 - m0) / l
    let yrel := (xy.2 - m1) / l
    let r0 := l0 / l
    let r1 := l1 / l
    let z0 := r1
    let z1 := -r0
    let r := xrel * r0 + yrel * r1
    let z := xrel * z0 + yrel * z1
    let rp := 1 + r
    let rm := 1 - r
    let Fr := if z = 0 then 0 else
      -0.5 * (Real.arctan (rp / z) + Real.arctan (rm / z))
    let Fz := (Real.log (max 1e-300 (z ^ 2 + rp ^ 2))
      - Real.log (max 1e-300 (z ^ 2 + rm ^ 2))) / 4
    let pre := I / (2 * Real.pi * l)
    some (pre * (Fr * r0 + Fz * z0), pre * (Fr * r1 + Fz * z1))

/-- Source `Field.F_ringcurrent` (vfp.py lines 1941-1963).  `Rp = 0` (a point on
the ring axis mirror with `z = 0`, `rho = -R`) raises in Python: `none`. -/
noncomputable def F_ringcurrent (xy : Point) (x0 y0 phi R I : ℝ) : Option Point :=
  let r0 := xy.1 - x0
  let r1 := xy.2 - y0
  let z0 := Real.cos phi
  let z1 := Real.sin phi
  let rho0 := z1
  let rho1 := -z0
  let z := r0 * z0 + r1 * z1
  let rho := r0 * rho0 + r1 * rho1
  let rb : ℝ × ℝ × ℝ := if rho < 0 then (-rho0, -rho1, -rho) else (rho0, rho1, rho)
  let Rp := hypot (R + rb.2.2) z
  let Rm := hypot (R - rb.2.2) z
  if Rp = 0 then none
  else
    let kc := max 1e-16 (Rm / Rp)
    let pre := I * R / (Real.pi * Rp ^ 3)
    let Fz := celValue kc (kc * kc) (R + rb.2.2) (R - rb.2.2) * pre
    let Frho := celValue kc (kc * kc) (-1) 1 * pre * z
    some (Frho * rb.1 + Fz * z0, Frho * rb.2.1 + Fz * z1)

/-- Source `Field.F_coil` (vfp.py lines 1965-2003).  A zero divisor (`Lhalf = 0`,
`Rp = 0`, or a corner point with `Rpzp = 0` / `Rpzm = 0`) raises in Python:
modelled as `none`. -/
noncomputable def F_coil (xy : Point) (x y phi R Lhalf I : ℝ) : Option Point :=
  let r0 := xy.1 - x
  let r1 := xy.2 - y
  let z0 := Real.cos phi
  let z1 := Real.sin phi
  let rho0 := z1
  let rho1 := -z0
  let z := r0 * z0 + r1 * z1
  let rho := r0 * rho0 + r1 * rho1
  let rb : ℝ × ℝ × ℝ := if rho < 0 then (-rho0, -rho1, -rho) else (rho0, rho1, rho)
  let Rp := R + rb.2.2
  let Rm := R - rb.2.2
  let zp := z + Lhalf
  let zm := z - Lhalf
  let Rpzp := hypot Rp zp
  let Rpzm := hypot Rp zm
  let Rmzp := hypot Rm zp
  let Rmzm := hypot Rm zm
  if Lhalf = 0 ∨ Rp = 0 ∨ Rpzp = 0 ∨ Rpzm = 0 then none
  else
    let g := Rm / Rp
    let kp := max 1e-16 (Rmzp / Rpzp)
    let km := max 1e-16 (Rmzm / Rpzm)
    let pre := I * R / (2 * Real.pi * Lhalf)
    let Fzp := celValue kp (g * g) 1 g * zp / Rpzp
    let Fzm := celValue km (g * g) 1 g * zm / Rpzm
    let Fz := pre / Rp * (Fzp - Fzm)
    let Frhop := celValue kp 1 1 (-1) / Rpzp
    let Frhom := celValue km 1 1 (-1) / Rpzm
    let Frho := pre * (Frhop - Frhom)
    some (Frho * rb.1 + Fz * z0, Frho * rb.2.1 + Fz * z1)

/-- Source `Field.V_potential` (vfp.py lines 2051-2053): a constant potential. -/
def V_potential (_xy : Point) (V : ℝ) : ℝ := V

/-- Source `Field.V_homogeneous` (vfp.py lines 2055-2057). -/
def V_homogeneous (xy : Point) (Fx Fy : ℝ) : ℝ := -xy.1 * Fx - xy.2 * Fy

/-- Source `Field.V_monopole` (vfp.py lines 2059-2062): floored at `|r| = 1e-16`. -/
noncomputable def V_monopole (xy : Point) (x y Q : ℝ) : ℝ :=
  let d := max 1e-16 (hypot (xy.1 - x) (xy.2 - y))
  Q / (4 * Real.pi * d)

/-- Source `Field.V_dipole` (vfp.py lines 2064-2070). -/
noncomputable def V_dipole (xy : Point) (x y px py : ℝ) : ℝ :=
  let r0 := xy.1 - x
  let r1 := xy.2 - y
  let d := hypot r0 r1
  if d = 0 then 0 else (r0 * px + r1 * py) / (4 * Real.pi * d ^ 3)

/-- Source `Field.V_dipole2d` (vfp.py lines 2072-2078). -/
noncomputable def V_dipole2d (xy : Point) (x y px py : ℝ) : ℝ :=
  let r0 := xy.1 - x
  let r1 := xy.2 - y
  let rr := r0 * r0 + r1 * r1
  if rr = 0 then 0 else (r0 * px + r1 * py) / (2 * Real.pi * rr)

/-- Source `Field.V_quadrupole` (vfp.py lines 2080-2087). -/
noncomputable def V_quadrupole (xy : Point) (x y Qxx Qxy Qyy : ℝ) : ℝ :=
  let r0 := xy.1 - x
  let r1 := xy.2 - y
  let d := hypot r0 r1
  if d = 0 then 0
  else
    let rQr := Qxx * r0 ^ 2 + 2 * Qxy * r0 * r1 + Qyy * r1 ^ 2
    rQr / (8 * Real.pi * d ^ 5)

/-- Source `Field.V_charged_wire` (vfp.py lines 2089-2092). -/
noncomputable def V_charged_wire (xy : Point) (x y q : ℝ) : ℝ :=
  let d := hypot (xy.1 - x) (xy.2 - y)
  q * -Real.log (max d 1e-18) / (2 * Real.pi)

/-- Source `Field.V_charged_line` (vfp.py lines 2094-2118).  The source asserts
`l > 0.`; failure is caught by `Field.V`'s `try/except` (`none`). -/
noncomputable def V_charged_line (xy : Point) (x0 y0 x1 y1 Q : ℝ) : Option ℝ :=
  let m0 := 0.5 * (x0 + x1)
  let m1 := 0.5 * (y0 + y1)
  let l0 := x1 - m0
  let l1 := y1 - m1
  let l := hypot l0 l1
  if ¬ 0 < l then none
  else
    let z0 := l0 / l
    let z1 := l1 / l
    let r0 := z1
    let r1 := -z0
    let xrel := (xy.1 - m0) / l
    let yrel := (xy.2 - m1) / l
    let r := xrel * r0 + yrel * r1
    let z := |xrel * z0 + yrel * z1|
    let dp := z + 1 + hypot (z + 1) r
    let dm := if 1 ≤ z then z - 1 + hypot (z - 1) r
      else r ^ 2 / (1 - z + hypot (1 - z) r)
    let dm' := max 1e-32 dm
    some (Q / (8 * Real.pi * l) * Real.log (dp / dm'))

/-- Source `Field.V_charged_plane` (vfp.py lines 2120-2145).  Asserts `l > 0.`. -/
noncomputable def V_charged_plane (xy : Point) (x0 y0 x1 y1 q : ℝ) : Option ℝ :=
  let m0 := 0.5 * (x0 + x1)
  let m1 := 0.5 * (y0 + y1)
  let l0 := x1 - m0
  let l1 := y1 - m1
  let l := hypot l0 l1
  if ¬ 0 < l then none
  else
    let r0 := l0 / l
    let r1 := l1 / l
    let z0 := r1
    let z1 := -r0
    let xrel := (xy.1 - m0) / l
    let yrel := (xy.2 - m1) / l
    let r := |xrel * r0 + yrel * r1|
    let z := |xrel * z0 + yrel * z1|
    let rp := r + 1
    let rm := r - 1
    let dp2 := rp * rp + z * z
    let dm2 := rm * rm + z * z
    let V1 : ℝ := 1
    let V2 := if dm2 ≠ 0 then V1 + 0.25 * rm * Real.log dm2 else V1
    let V3 := V2 - 0.25 * rp * Real.log dp2
    let V4 := if z ≠ 0 then
      V3 + 0.5 * z * (Real.arctan (rm / z) - Real.arctan (rp / z)) else V3
    some (q / (2 * Real.pi) * (V4 - Real.log l))

/-- One `s`-term of the sum in `Field.V_charged_rect` (vfp.py lines 2164-2175). -/
noncomputable def V_charged_rect_term (r z a s : ℝ) : ℝ :=
  let x := r + s
  let r2 := hypot x z
  let r3 := hypot r2 a
  let t1 := if 1e-16 ≤ r2
    then s * (a * Real.log (x + r3) + x * Real.log ((a + r3) / r2))
    else s * a * Real.log r3
  if z * r3 ≠ 0 then t1 - s * z * Real.arctan (a * x / (z * r3)) else t1

/-- Source `Field.V_charged_rect` (vfp.py lines 2147-2177).  `l = 0` raises and
`a = 0` fails the source's assert: both `none`. -/
noncomputable def V_charged_rect (xy : Point) (x0 y0 x1 y1 Lz Q : ℝ) : Option ℝ :=
  let m0 := 0.5 * (x0 + x1)
  let m1 := 0.5 * (y0 + y1)
  let l0 := x1 - m0
  let l1 := y1 - m1
  let l := hypot l0 l1
  if l = 0 then none
  else
    let a := |0.5 * Lz / l|
    if a = 0 then none
    else
      let xrel := (xy.1 - m0) / l
      let yrel := (xy.2 - m1) / l
      let r0 := l0 / l
      let r1 := l1 / l
      let z0 := r1
      let z1 := -r0
      let r := xrel * r0 + yrel * r1
      let z := xrel * z0 + yrel * z1
      some (Q / (8 * Real.pi * a * l)
        * (V_charged_rect_term r z a (-1) + V_charged_rect_term r z a 1))

/-- The integrand of `Field.V_charged_disc` (vfp.py lines 2194-2198). -/
noncomputable def V_charged_disc_v (zrho1 rho t : ℝ) : ℝ :=
  let st := t * Real.sqrt (2 - t * t)
  let s1 := Real.sqrt (zrho1 - st * 2 * rho) - rho + st
  let s2 := Real.sqrt (zrho1 + st * 2 * rho) - rho - st
  Real.log (s1 / s2) * 2 * t

/-- Source `Field.V_charged_disc` (vfp.py lines 2179-2202).  Asserts `R > 0.`; the
`integrate.quad` call is modelled as the interval integral. -/
noncomputable def V_charged_disc (xy : Point) (x0 y0 x1 y1 Q : ℝ) : Option ℝ :=
  let m0 := 0.5 * (x0 + x1)
  let m1 := 0.5 * (y0 + y1)
  let R0 := x1 - m0
  let R1 := y1 - m1
  let R := hypot R0 R1
  if ¬ 0 < R then none
  else
    let rho0 := R0 / R
    let rho1 := R1 / R
    let z0 := rho1
    let z1 := -rho0
    let xrel := (xy.1 - m0) / R
    let yrel := (xy.2 - m1) / R
    let z := xrel * z0 + yrel * z1
    let rho := xrel * rho0 + yrel * rho1
    let zrho1 := z * z + rho * rho + 1
    let V := ∫ t in (0:ℝ)..1, V_charged_disc_v zrho1 rho t
    some (Q / (2 * Real.pi * Real.pi * R) * V)

/-- One element's contribution to `Field.V` (the dispatch of vfp.py lines
2014-2047).  `none` stands for a raised exception, which the surrounding
`try/except` turns into a skipped (zero) contribution.  Element kinds with
no potential branch (`wire`, `sheetcurrent`, `ringcurrent`, `coil`, a
`custom` without `V`) only print a warning and add nothing. -/
noncomputable def contribV (el : Element) (xy : Point) : Option ℝ :=
  match el with
  | .potential V => some (V_potential xy V)
  | .homogeneous Fx Fy => some (V_homogeneous xy Fx Fy)
  | .monopole x y Q => some (V_monopole xy x y Q)
  | .dipole x y px py => some (V_dipole xy x y px py)
  | .dipole2d x y px py => some (V_dipole2d xy x y px py)
  | .quadrupole x y Qxx Qxy Qyy => some (V_quadrupole xy x y Qxx Qxy Qyy)
  | .charged_wire x y q => some (V_charged_wire xy x y q)
  | .charged_line x0 y0 x1 y1 Q => V_charged_line xy x0 y0 x1 y1 Q
  | .charged_plane x0 y0 x1 y1 q => V_charged_plane xy x0 y0 x1 y1 q
  | .charged_rect x0 y0 x1 y1 Lz Q => V_charged_rect xy x0 y0 x1 y1 Lz Q
  | .charged_disc x0 y0 x1 y1 Q => V_charged_disc xy x0 y0 x1 y1 Q
  | .custom _ _ (some Vf) => some (Vf xy)
  | _ => some 0

/-- Source `Field.V` (vfp.py lines 2006-2049): the running sum `Vsum` over all
elements, exceptions skipped. -/
noncomputable def V (els : List Element) (xy : Point) : ℝ :=
  els.foldl (fun acc el => acc + (contribV el xy).getD 0) 0

/-- One element's contribution to `Field.F` (the dispatch of vfp.py lines
1639-1691), given `Vself`, the potential of the whole field (the source's
`self.V`): a `custom` element specified only through its potential takes
the central finite difference (δ = 1e-6) of `self.V`.  `none` stands for a
raised exception; a `potential` element has no `F` branch and a `custom`
element with no callbacks adds nothing. -/
noncomputable def contribF (Vself : Point → ℝ) (el : Element) (xy : Point) :
    Option Point :=
  match el with
  | .homogeneous Fx Fy => some (F_homogeneous xy Fx Fy)
  | .monopole x y Q => some (F_monopole xy x y Q)
  | .dipole x y px py => some (F_dipole xy x y px py)
  | .dipole2d x y px py => some (F_dipole2d xy x y px py)
  | .quadrupole x y Qxx Qxy Qyy => some (F_quadrupole xy x y Qxx Qxy Qyy)
  | .wire x y I => some (F_wire xy x y I)
  | .charged_wire x y q => some (F_charged_wire xy x y q)
  | .charged_line x0 y0 x1 y1 Q => F_charged_line xy x0 y0 x1 y1 Q
  | .charged_plane x0 y0 x1 y1 q => F_charged_plane xy x0 y0 x1 y1 q
  | .charged_rect x0 y0 x1 y1 Lz Q => F_charged_rect xy x0 y0 x1 y1 Lz Q
  | .charged_disc x0 y0 x1 y1 Q => F_charged_disc xy x0 y0 x1 y1 Q
  | .sheetcurrent x0 y0 x1 y1 I => F_sheetcurrent xy x0 y0 x1 y1 I
  | .ringcurrent x y phi R I => F_ringcurrent xy x y phi R I
  | .coil x y phi R Lhalf I => F_coil xy x y phi R Lhalf I
  | .custom (some f) _ _ => some (f xy)
  | .custom none (some Fc) _ => some (Fc xy)
  | .custom none none (some _) =>
      let d : ℝ := 1e-6
      some ((Vself (xy.1 - d, xy.2) - Vself (xy.1 + d, xy.2)) / (2 * d),
            (Vself (xy.1, xy.2 - d) - Vself (xy.1, xy.2 + d)) / (2 * d))
  | .custom none none none => some (0, 0)
  | .potential _ => some (0, 0)

/-- Source `Field.F` (vfp.py lines 1632-1693): the running sum `Fxy` over all
elements, exceptions skipped. -/
noncomputable def F (els : List Element) (xy : Point) : Point :=
  els.foldl (fun acc el => padd acc ((contribF (V els) el xy).getD (0, 0))) (0, 0)

/-- Source `Field.Fn` (vfp.py lines 1696-1704): the normalized field direction. -/
noncomputable def Fn (els : List Element) (xy : Point) : Point :=
  let force := F els xy
  let d := vabs force
  if d ≠ 0 then (force.1 / d, force.2 / d) else (0, 0)

end Field

/-- One value of a legacy dict-of-lists field description: a tuple of
numbers, or (under the key "custom") a callback. -/
inductive LegacyItem where
  | nums (l : List ℝ)
  | fn (f : Point → Point)

/-- The legacy (VFPt 1.0-1.10) dictionary form: key → list of tuples. -/
abbrev LegacyDict := List (String × List LegacyItem)

/-- One entry of `Field.convert_oldstyle_dict` (vfp.py lines 1593-1629).
Unknown keys print a warning and are skipped (`none`).  Numeric tuples are
read positionally (a too-short tuple would raise `IndexError` in Python;
legacy tuples have the documented arity, and out-of-range reads are
modelled as 0).  A non-callable value under "custom" is stored as-is by the
source and later raises `TypeError` inside `Field.F`/`Field.V`, where it is
caught and contributes nothing; it is modelled as an empty custom element. -/
def convertLegacyItem (t : String) (item : LegacyItem) : Option Element :=
  match item with
  | .fn f => if t = "custom" then some (.custom (some f) none none) else none
  | .nums l =>
    let g : ℕ → ℝ := fun i => l.getD i 0
    if t = "homogeneous" then some (.homogeneous (g 0) (g 1))
    else if t = "monopoles" then some (.monopole (g 0) (g 1) (g 2))
    else if t = "dipoles" then some (.dipole (g 0) (g 1) (g 2) (g 3))
    else if t = "quadrupoles" then some (.quadrupole (g 0) (g 1) (g 2) 0 (g 3))
    else if t = "wires" then some (.wire (g 0) (g 1) (g 2))
    else if t = "charged_wires" then some (.charged_wire (g 0) (g 1) (g 2))
    else if t = "charged_planes" then
      some (.charged_plane (g 0) (g 1) (g 2) (g 3) (g 4))
    else if t = "charged_lines" then
      some (.charged_line (g 0) (g 1) (g 2) (g 3) (g 4))
    else if t = "charged_discs" then
      some (.charged_disc (g 0) (g 1) (g 2) (g 3) (g 4))
    else if t = "ringcurrents" then
      some (.ringcurrent (g 0) (g 1) (g 2) (g 3) (g 4))
    else if t = "coils" then
      some (.coil (g 0) (g 1) (g 2) (g 3) (g 4) (g 5))
    else if t = "custom" then some (.custom none none none)
    else none

/-- Source `Field.convert_oldstyle_dict` (vfp.py lines 1593-1629). -/
def convertOldstyleDict (dct : LegacyDict) : List Element :=
  dct.flatMap (fun kv => kv.2.filterMap (convertLegacyItem kv.1))

/-- The possible arguments of the `Field` constructor: a list of elements,
a legacy dict, or any other Python object. -/
inductive FieldArg where
  | ofList (elements : List Element)
  | ofDict (elements : LegacyDict)
  | other

/-- Source `Field.__init__` (vfp.py lines 1561-1571): the element list the
constructed field holds.  An argument that is neither a list nor a dict
silently yields an empty element list; the subsequent structural sanity
`assert` is vacuous on an empty list (and holds by construction for the
typed element lists modelled here). -/
def fieldInit : FieldArg → List Element
  | .ofList els => els
  | .ofDict d => convertOldstyleDict d
  | .other => []

/-- One node of a `FieldLine`: position, entry/exit tangents (absent at the
two line ends), corner flag and normalized arc-length parameter `t`. -/
structure Node where
  p : Point
  v_in : Option Point := none
  v_out : Option Point := none
  corner : Bool := false
  t : ℝ := 0

instance : Inhabited Node := ⟨⟨(0, 0), none, none, false, 0⟩⟩

namespace FieldLine

/-- The cumulative-`t` recursion of `_create_nodes` (vfp.py lines
1308-1311): the running value `t`, the previous position, and the raw
(unnormalized) parameters of the remaining nodes. -/
noncomputable def rawTAux (t : ℝ) (prev : Point) : List Point → List ℝ
  | [] => []
  | q :: rest => (t + vabs (psub prev q)) ::
      rawTAux (t + vabs (psub prev q)) q rest

/-- The raw cumulative arc-length parameters of a node-position list:
`t[0] = 0`, `t[i] = t[i-1] + |p[i-1] - p[i]|`. -/
noncomputable def rawT : List Point → List ℝ
  | [] => []
  | p :: rest => 0 :: rawTAux 0 p rest

/-- The normalized `t` values `_create_nodes` stores on its nodes (vfp.py
lines 1307-1315): the raw cumulative parameters, divided by the total
`length = nodes[-1]['t']` when that is nonzero. -/
noncomputable def createNodesT (ps : List Point) : List ℝ :=
  let raw := rawT ps
  let length := (raw.getLast?).getD 0
  if length ≠ 0 then raw.map (fun t => t / length) else raw

/-- Total polygonal arc length along consecutive points, starting from
`prev`.  (The quantity `_is_loop` accumulates, and the final raw `t`.) -/
noncomputable def polyLen (prev : Point) : List Point → ℝ
  | [] => 0
  | q :: rest => vabs (psub q prev) + polyLen q rest

/-- Total polygonal arc length in the orientation `_create_nodes` computes
it (`nodes[i-1] - nodes[i]`); equal to `polyLen` since the norm is
symmetric. -/
noncomputable def polyLenRev (prev : Point) : List Point → ℝ
  | [] => 0
  | q :: rest => vabs (psub prev q) + polyLenRev q rest

/-- The accumulation loop of `_is_loop` (vfp.py lines 1268-1273): starting
from accumulated `length`, walk the remaining nodes and return `true` as
soon as the running length exceeds `5e-3`. -/
noncomputable def isLoopGo (length : ℝ) (prev : Point) : List Point → Bool
  | [] => false
  | q :: rest =>
    if 5e-3 < length + vabs (psub q prev) then true
    else isLoopGo (length + vabs (psub q prev)) q rest

/-- Source `FieldLine._is_loop` (vfp.py lines 1265-1273).  (Python indexes
`nodes[0]` and `nodes[-1]`, so the list is nonempty at every call site;
the empty case is never exercised.) -/
noncomputable def isLoop (nodes : List Point) (path_close_tol : ℝ) : Bool :=
  match nodes with
  | [] => false
  | p :: rest =>
    let last := (rest.getLast?).getD p
    if max 5e-4 path_close_tol < vabs (psub p last) then false
    else isLoopGo 0 p rest

/-- Source `numpy.searchsorted(l, t)` with side "left": the first index whose
element is not below `t`. -/
noncomputable def searchsortedLeft (l : List ℝ) (t : ℝ) : ℕ :=
  match l with
  | [] => 0
  | x :: rest => if t ≤ x then 0 else searchsortedLeft rest t + 1

/-- Source `list_interpolate(l, t)` (vfp.py lines 139-150): the index and fraction
of `t` in the sorted knot list `l`, via a linear `interp1d` over
`range(len(l))`.  (`interp1d` computes through `numpy`, so a duplicate-knot
division by zero yields a non-finite float rather than raising; the claims
settled here never reach that path, and Lean's total division stands in.) -/
noncomputable def listInterpolate (l : List ℝ) (t : ℝ) : ℕ × ℝ :=
  let n := l.length
  let first := (l.head?).getD 0
  let last := (l.getLast?).getD 0
  let ip : ℕ × ℝ :=
    if t < first then (0, 0)
    else if last < t then (n - 1, 0)
    else
      let j := min (max (searchsortedLeft l t) 1) (n - 1) - 1
      let lj := (l.getD j 0)
      let lj1 := (l.getD (j + 1) 0)
      let v := (j : ℝ) + (t - lj) / (lj1 - lj)
      (j, v - (j : ℝ))
  if 0 < ip.1 ∧ n - 1 ≤ ip.1 then (n - 2, ip.2 + (ip.1 : ℝ) - ((n : ℝ) - 2))
  else ip

/-- The scalar cubic-Hermite interpolation of `get_position` (vfp.py line
1338), applied per component. -/
def hermite (p0 p1 v0 v1 p q : ℝ) : ℝ :=
  q * p0 + p * p1 + p * q * ((p - q) * (p1 - p0) + (q * v0 - p * v1))

/-- Source `FieldLine.get_position(t)` (vfp.py lines 1322-1339), the dense-output
routine.  A single node returns its position; an empty node list returns
the zero vector; otherwise the enclosing interval is found through
`list_interpolate` and interpolated as a cubic Hermite segment.  The
interior path reads `v_out`/`v_in` of the interval's nodes, which Python
would fail on when absent (`none`). -/
noncomputable def get_position (nodes : List Node) (t : ℝ) : Option Point :=
  if nodes.length = 1 then some ((nodes.headI).p)
  else if nodes.length ≤ 0 then some (0, 0)
  else
    let t' := if t ≠ 1 then pymod t 1 else t
    let np := listInterpolate (nodes.map (fun nd => nd.t)) t'
    let n := np.1
    let p := np.2
    let nd0 := nodes.getD n default
    let nd1 := nodes.getD (n + 1) default
    match nd0.v_out, nd1.v_in with
    | some v0, some v1 =>
      let q := 1 - p
      some (hermite nd0.p.1 nd1.p.1 v0.1 v1.1 p q,
            hermite nd0.p.2 nd1.p.2 v0.2 v1.2 p q)
    | _, _ => none

/-- The drawing-area bounds rectangle. -/
structure Bounds where
  x0 : ℝ
  y0 : ℝ
  x1 : ℝ
  y1 : ℝ

/-- Source `FieldLine._out_of_bounds(p, bounds)` (vfp.py lines 1462-1477), with
the line's optional user `bounds_func` as first argument. -/
noncomputable def out_of_bounds (bounds_func : Option (Point → ℝ)) (p : Point)
    (bounds : Option Bounds) : ℝ :=
  let rest :=
    match bounds with
    | none => -1
    | some b =>
      if p.1 < b.x0 ∨ p.2 < b.y0 ∨ b.x1 < p.1 ∨ b.y1 < p.2 then
        Real.sqrt ((p.1 - b.x0) ^ 2 + (p.2 - b.y0) ^ 2
          + (b.x1 - p.1) ^ 2 + (b.y1 - p.2) ^ 2)
      else
        max (max (b.x0 - p.1) (b.y0 - p.2)) (max (p.1 - b.x1) (p.2 - b.y1))
  match bounds_func with
  | some bf => if 0 < bf p then bf p else rest
  | none => rest

/-- The L∞ signed distance of a point to a rectangle, as the specification
words it: negative inside, positive outside, zero on the boundary.  (The
specification-side definition, to compare `out_of_bounds` against.) -/
def linfSignedDist (p : Point) (b : Bounds) : ℝ :=
  max (max (b.x0 - p.1) (b.y0 - p.2)) (max (p.1 - b.x1) (p.2 - b.y1))

end FieldLine

/-- The `func` argument of `Startpath.__init__`: a Python object that is
either callable (returning an array, whose shape is its length) or not. -/
inductive PathFunc where
  | callable (f : ℝ → List ℝ)
  | notCallable

/-- Source `Startpath.__init__` (vfp.py lines 2211-2222) up to `_make_spline`:
`none` models a failed `assert` (`p0.shape == (2,)` for a callable `func`,
then `t1 > t0`), which aborts construction before any spline is built; on
success the spline is built from the stored `(t0, t1)`. -/
noncomputable def startpathInit (func : PathFunc) (t0 t1 : ℝ) : Option (ℝ × ℝ) :=
  match func with
  | .callable f =>
    if (f t0).length = 2 then
      if t0 < t1 then some (t0, t1) else none
    else none
  | .notCallable =>
    if t0 < t1 then some (t0, t1) else none

/-! ## Theorems about the embedded program -/

/-- C2: a monopole element evaluated exactly at its own position returns the
zero vector, and a dipole element evaluated exactly at its own position
returns its moment `(px, py)` (the deliberate unphysical sign that lets the
integrator pass through the singularity). -/
theorem singular_point_values (x y Q px py : ℝ) :
    Field.F_monopole (x, y) x y Q = (0, 0) ∧
    Field.F_dipole (x, y) x y px py = (px, py) := by
  constructor
  · unfold Field.F_monopole hypot
    norm_num
  · unfold Field.F_dipole hypot
    norm_num

/-- C3 counterexample: at `a1 = π`, `a2 = 0` the function `angle_dif`
returns exactly `-π`, so its value does not always lie in the half-open
interval `(-π, π]` and `-π` is in fact returned. -/
theorem angle_dif_cex :
    angle_dif Real.pi 0 = -Real.pi ∧ ¬ (-Real.pi < angle_dif Real.pi 0) := by
  have h : angle_dif Real.pi 0 = -Real.pi := by
    unfold angle_dif pymod
    norm_num
  exact ⟨h, by rw [h]; exact lt_irrefl _⟩

/-- C3 (amended): `angle_dif(a1, a2)` equals `((a2 - a1 + π) mod 2π) - π`
with Python's floor-based modulo, and the returned value always lies in the
half-open interval `[-π, π)` (so `π` is never returned, while `-π` is
attained). -/
theorem angle_dif_spec (a1 a2 : ℝ) :
    angle_dif a1 a2 = pymod (a2 - a1 + Real.pi) (2 * Real.pi) - Real.pi ∧
    -Real.pi ≤ angle_dif a1 a2 ∧ angle_dif a1 a2 < Real.pi := by
  have h2pi : (0 : ℝ) < 2 * Real.pi := by positivity
  obtain ⟨h0, h1⟩ := pymod_mem (a2 - a1 + Real.pi) (2 * Real.pi) h2pi
  refine ⟨rfl, ?_, ?_⟩
  · unfold angle_dif; linarith
  · unfold angle_dif; linarith

/-- C5: `cel` returns NaN (modelled `none`) exactly when `kc = 0`; on every
other input it agrees with the fuel-limited variant that runs the loop for
at most 11 rounds, so the iteration always breaks (tolerance met or the
round counter reaches its cap of 10) and `cel` is total. -/
theorem cel_spec (kc p a b : ℝ) :
    (cel kc p a b = none ↔ kc = 0) ∧ cel kc p a b = celFuel kc p a b := by
  constructor
  · constructor
    · intro h
      by_contra hkc
      unfold cel at h
      rw [if_neg hkc] at h
      by_cases hp : 0 < p <;> simp [hp] at h
    · intro h
      simp [cel, h]
  · unfold cel celFuel
    by_cases hkc : kc = 0
    · rw [if_pos hkc, if_pos hkc]
    · rw [if_neg hkc, if_neg hkc]
      by_cases hp : 0 < p
      · simp only [if_pos hp]
        rw [celLoopFuel_eq_celLoop 11 0 _ _ _ _ _ _ (by norm_num) (by norm_num)]
      · simp only [if_neg hp]
        rw [celLoopFuel_eq_celLoop 11 0 _ _ _ _ _ _ (by norm_num) (by norm_num)]

/-- C8: constructing a `Startpath` with `t1 ≤ t0` fails the `assert
t1 > t0`, and constructing one whose callable `func` does not return a
2-component vector at `t0` fails the `assert p0.shape == (2,)`; both
asserts sit before the `_make_spline()` call, so construction aborts with
no spline built. -/
theorem startpath_assert_spec (f : ℝ → List ℝ) (t0 t1 : ℝ) :
    (t1 ≤ t0 → startpathInit (.callable f) t0 t1 = none) ∧
    ((f t0).length ≠ 2 → startpathInit (.callable f) t0 t1 = none) := by
  constructor
  · intro h
    by_cases hs : (f t0).length = 2
    · simp [startpathInit, hs, not_lt.mpr h]
    · simp [startpathInit, hs]
  · intro h
    simp [startpathInit, h]

/-- C9: the dense-output routine `get_position` returns the zero vector on
an empty node list and the single node's position on a one-node list, for
every parameter `t`, without reaching the interpolation path (so it cannot
raise on these degenerate lists). -/
theorem get_position_degenerate (nd : Node) (t : ℝ) :
    FieldLine.get_position [] t = some ((0 : ℝ), (0 : ℝ)) ∧
    FieldLine.get_position [nd] t = some nd.p := by
  constructor
  · unfold FieldLine.get_position
    norm_num
  · unfold FieldLine.get_position
    simp

/-- C10: a `Field` constructed from an argument that is neither a list nor
a dict gets an empty element list (the sanity assert is vacuous on it), and
its `F`, `Fn` and `V` all evaluate to zero everywhere. -/
theorem fieldInit_other_spec (xy : Point) :
    fieldInit .other = [] ∧
    Field.F (fieldInit .other) xy = (0, 0) ∧
    Field.Fn (fieldInit .other) xy = (0, 0) ∧
    Field.V (fieldInit .other) xy = 0 := by
  refine ⟨rfl, rfl, ?_, rfl⟩
  unfold Field.Fn
  have hF : Field.F (fieldInit .other) xy = ((0 : ℝ), (0 : ℝ)) := rfl
  rw [hF]
  simp [vabs, hypot]

theorem vabs_nonneg (p : Point) : 0 ≤ vabs p := Real.sqrt_nonneg _

theorem polyLen_nonneg (l : List Point) : ∀ prev : Point, 0 ≤ FieldLine.polyLen prev l := by
  induction l with
  | nil => intro prev; exact le_refl 0
  | cons q rest ih =>
    intro prev
    unfold FieldLine.polyLen
    have := ih q
    have := vabs_nonneg (psub q prev)
    linarith

theorem isLoopGo_eq_polyLen (l : List Point) :
    ∀ (L : ℝ) (prev : Point), L ≤ 5e-3 →
      (FieldLine.isLoopGo L prev l = true ↔ 5e-3 < L + FieldLine.polyLen prev l) := by
  induction l with
  | nil =>
    intro L prev hL
    simp only [FieldLine.isLoopGo, FieldLine.polyLen, Bool.false_eq_true, false_iff, not_lt]
    linarith
  | cons q rest ih =>
    intro L prev hL
    simp only [FieldLine.isLoopGo, FieldLine.polyLen]
    by_cases h : 5e-3 < L + vabs (psub q prev)
    · rw [if_pos h]
      simp only [true_iff]
      have := polyLen_nonneg rest q
      linarith
    · rw [if_neg h]
      rw [ih (L + vabs (psub q prev)) q (by linarith)]
      constructor <;> intro <;> linarith

/-- C7: `_is_loop(nodes, path_close_tol)` returns true exactly when the
distance between the first and last node is at most `max(5e-4,
path_close_tol)` and the total polygonal arc length along consecutive
nodes exceeds `5e-3` (the early exit in the source's accumulation loop
fires at a prefix sum above `5e-3` if and only if the total exceeds it). -/
theorem isLoop_iff (p : Point) (rest : List Point) (tol : ℝ) :
    FieldLine.isLoop (p :: rest) tol = true ↔
      (vabs (psub p ((rest.getLast?).getD p)) ≤ max 5e-4 tol ∧
       5e-3 < FieldLine.polyLen p rest) := by
  simp only [FieldLine.isLoop]
  by_cases h : max 5e-4 tol < vabs (psub p ((rest.getLast?).getD p))
  · rw [if_pos h]
    simp only [Bool.false_eq_true, false_iff, not_and]
    intro hc
    linarith
  · rw [if_neg h]
    rw [isLoopGo_eq_polyLen rest 0 p (by norm_num)]
    rw [not_lt] at h
    rw [zero_add]
    exact ⟨fun hg => ⟨h, hg⟩, fun hg => hg.2⟩

theorem rawTAux_chain (l : List Point) :
    ∀ (t : ℝ) (prev : Point), List.Chain' (· ≤ ·) (t :: FieldLine.rawTAux t prev l) := by
  induction l with
  | nil => intro t prev; simp [FieldLine.rawTAux]
  | cons q rest ih =>
    intro t prev
    unfold FieldLine.rawTAux
    rw [List.chain'_cons]
    exact ⟨by have := vabs_nonneg (psub prev q); linarith, ih _ q⟩

theorem rawTAux_last (l : List Point) :
    ∀ (t : ℝ) (prev : Point),
      (t :: FieldLine.rawTAux t prev l).getLast? = some (t + FieldLine.polyLenRev prev l) := by
  induction l with
  | nil =>
    intro t prev
    simp [FieldLine.rawTAux, FieldLine.polyLenRev]
  | cons q rest ih =>
    intro t prev
    unfold FieldLine.rawTAux FieldLine.polyLenRev
    rw [List.getLast?_cons_cons, ih _ q, add_assoc]

theorem polyLenRev_nonneg (l : List Point) :
    ∀ prev : Point, 0 ≤ FieldLine.polyLenRev prev l := by
  induction l with
  | nil => intro prev; exact le_refl 0
  | cons q rest ih =>
    intro prev
    unfold FieldLine.polyLenRev
    have := ih q
    have := vabs_nonneg (psub prev q)
    linarith

/-- C6 counterexample: a finalized node list of two coincident positions
has total polygonal length 0, the normalization is skipped, and the last
normalized parameter is 0, not 1, although N = 2 ≥ 2. -/
theorem createNodesT_cex :
    FieldLine.createNodesT [((0 : ℝ), (0 : ℝ)), ((0 : ℝ), (0 : ℝ))] = [0, 0] ∧
    (FieldLine.createNodesT [((0 : ℝ), (0 : ℝ)), ((0 : ℝ), (0 : ℝ))]).getLast? ≠
      some 1 := by
  have h0 : vabs (psub ((0 : ℝ), (0 : ℝ)) ((0 : ℝ), (0 : ℝ))) = 0 := by
    simp [vabs, psub, hypot]
  have hraw : FieldLine.rawT [((0 : ℝ), (0 : ℝ)), ((0 : ℝ), (0 : ℝ))] = [0, 0] := by
    simp only [FieldLine.rawT, FieldLine.rawTAux, h0]
    norm_num
  have hcn : FieldLine.createNodesT [((0 : ℝ), (0 : ℝ)), ((0 : ℝ), (0 : ℝ))] = [0, 0] := by
    simp only [FieldLine.createNodesT, hraw]
    norm_num
  refine ⟨hcn, ?_⟩
  rw [hcn]
  simp

/-- C6 (amended): for the node parameters `_create_nodes` computes on any
nonempty position list, `t[0] = 0` and `t` is monotone non-decreasing; and
whenever the total polygonal length is nonzero (in particular whenever
N ≥ 2 with not all nodes coincident), the last parameter is 1.  When the
total length is zero the source skips the normalization and the last
parameter stays 0. -/
theorem createNodesT_spec (p : Point) (ps : List Point) :
    (FieldLine.createNodesT (p :: ps)).head? = some 0 ∧
    List.Chain' (· ≤ ·) (FieldLine.createNodesT (p :: ps)) ∧
    (FieldLine.polyLenRev p ps ≠ 0 →
      (FieldLine.createNodesT (p :: ps)).getLast? = some 1) := by
  have hlast : (FieldLine.rawT (p :: ps)).getLast? =
      some (FieldLine.polyLenRev p ps) := by
    show (0 :: FieldLine.rawTAux 0 p ps).getLast? = _
    rw [rawTAux_last ps 0 p, zero_add]
  have hchain : List.Chain' (· ≤ ·) (0 :: FieldLine.rawTAux 0 p ps) :=
    rawTAux_chain ps 0 p
  have hcn : FieldLine.createNodesT (p :: ps) =
      if FieldLine.polyLenRev p ps ≠ 0 then
        (FieldLine.rawT (p :: ps)).map (fun t => t / FieldLine.polyLenRev p ps)
      else FieldLine.rawT (p :: ps) := by
    simp only [FieldLine.createNodesT]
    rw [hlast]
    simp only [Option.getD_some]
  rw [hcn]
  by_cases hL : FieldLine.polyLenRev p ps = 0
  · rw [if_neg (not_not.mpr hL)]
    refine ⟨rfl, hchain, fun h => (h hL).elim⟩
  · rw [if_pos hL]
    have hpos : 0 < FieldLine.polyLenRev p ps :=
      lt_of_le_of_ne (polyLenRev_nonneg ps p) (Ne.symm hL)
    refine ⟨?_, ?_, ?_⟩
    · show ((0 :: FieldLine.rawTAux 0 p ps).map
        (fun t => t / FieldLine.polyLenRev p ps)).head? = some 0
      simp
    · rw [List.chain'_map]
      exact hchain.imp (fun a b hab => (div_le_div_iff_of_pos_right hpos).mpr hab)
    · intro _
      rw [List.getLast?_map, hlast]
      simp [div_self hL]

/-- C4 counterexample: with no user bounds function, at the point `(2, 0)`
outside the rectangle `[0,1] × [0,1]` the source returns the euclidean norm
`sqrt 6` of the four coordinate offsets, not the L∞ signed distance 1. -/
theorem out_of_bounds_cex :
    FieldLine.out_of_bounds none ((2 : ℝ), (0 : ℝ)) (some ⟨0, 0, 1, 1⟩) ≠
      FieldLine.linfSignedDist ((2 : ℝ), (0 : ℝ)) ⟨0, 0, 1, 1⟩ := by
  have hval : FieldLine.out_of_bounds none ((2 : ℝ), (0 : ℝ)) (some ⟨0, 0, 1, 1⟩) =
      Real.sqrt 6 := by
    simp only [FieldLine.out_of_bounds]
    rw [if_pos (by norm_num)]
    norm_num
  have hlinf : FieldLine.linfSignedDist ((2 : ℝ), (0 : ℝ)) ⟨0, 0, 1, 1⟩ = 1 := by
    simp only [FieldLine.linfSignedDist]
    norm_num
  rw [hval, hlinf]
  have : (1 : ℝ) < Real.sqrt 6 := by
    rw [show (1 : ℝ) = Real.sqrt 1 from (Real.sqrt_one).symm]
    exact Real.sqrt_lt_sqrt (by norm_num) (by norm_num)
  linarith

/-- C4 (amended): when the user bounds function is absent or non-positive
at `p`, `_out_of_bounds` returns -1 for `bounds = None`; for a point inside
the closed rectangle it returns the (non-positive) L∞ signed distance; for
a point outside it returns a positive value, namely the euclidean norm of
the four coordinate offsets rather than the L∞ distance. -/
theorem out_of_bounds_spec (obf : Option (Point → ℝ)) (p : Point) (b : FieldLine.Bounds)
    (hbf : ∀ f, obf = some f → ¬ 0 < f p) :
    FieldLine.out_of_bounds obf p none = -1 ∧
    (b.x0 ≤ p.1 ∧ b.y0 ≤ p.2 ∧ p.1 ≤ b.x1 ∧ p.2 ≤ b.y1 →
      FieldLine.out_of_bounds obf p (some b) = FieldLine.linfSignedDist p b ∧
      FieldLine.out_of_bounds obf p (some b) ≤ 0) ∧
    ((p.1 < b.x0 ∨ p.2 < b.y0 ∨ b.x1 < p.1 ∨ b.y1 < p.2) →
      0 < FieldLine.out_of_bounds obf p (some b)) := by
  have hobf : ∀ bounds, FieldLine.out_of_bounds obf p bounds =
      FieldLine.out_of_bounds none p bounds := by
    intro bounds
    cases obf with
    | none => rfl
    | some bf =>
      simp only [FieldLine.out_of_bounds]
      rw [if_neg (hbf bf rfl)]
  refine ⟨by rw [hobf]; rfl, ?_, ?_⟩
  · rintro ⟨h1, h2, h3, h4⟩
    rw [hobf]
    have hcond : ¬ (p.1 < b.x0 ∨ p.2 < b.y0 ∨ b.x1 < p.1 ∨ b.y1 < p.2) := by
      push_neg
      exact ⟨h1, h2, h3, h4⟩
    constructor
    · simp only [FieldLine.out_of_bounds]
      rw [if_neg hcond]
      rfl
    · simp only [FieldLine.out_of_bounds]
      rw [if_neg hcond]
      have e1 : b.x0 - p.1 ≤ 0 := by linarith
      have e2 : b.y0 - p.2 ≤ 0 := by linarith
      have e3 : p.1 - b.x1 ≤ 0 := by linarith
      have e4 : p.2 - b.y1 ≤ 0 := by linarith
      exact max_le (max_le e1 e2) (max_le e3 e4)
  · intro hout
    rw [hobf]
    simp only [FieldLine.out_of_bounds]
    rw [if_pos hout]
    apply Real.sqrt_pos.mpr
    have s1 := sq_nonneg (p.1 - b.x0)
    have s2 := sq_nonneg (p.2 - b.y0)
    have s3 := sq_nonneg (b.x1 - p.1)
    have s4 := sq_nonneg (b.y1 - p.2)
    rcases hout with h | h | h | h
    · have hne : p.1 - b.x0 ≠ 0 := sub_ne_zero.mpr (ne_of_lt h)
      have := lt_of_le_of_ne (sq_nonneg (p.1 - b.x0)) (Ne.symm (pow_ne_zero 2 hne))
      linarith
    · have hne : p.2 - b.y0 ≠ 0 := sub_ne_zero.mpr (ne_of_lt h)
      have := lt_of_le_of_ne (sq_nonneg (p.2 - b.y0)) (Ne.symm (pow_ne_zero 2 hne))
      linarith
    · have hne : b.x1 - p.1 ≠ 0 := sub_ne_zero.mpr (ne_of_lt h)
      have := lt_of_le_of_ne (sq_nonneg (b.x1 - p.1)) (Ne.symm (pow_ne_zero 2 hne))
      linarith
    · have hne : b.y1 - p.2 ≠ 0 := sub_ne_zero.mpr (ne_of_lt h)
      have := lt_of_le_of_ne (sq_nonneg (b.y1 - p.2)) (Ne.symm (pow_ne_zero 2 hne))
      linarith

/-- C4 witness: a concrete instance of `out_of_bounds_spec` with a
non-positive user bounds function, the inside point `(1/2, 1/2)` and the
unit square. -/
theorem out_of_bounds_spec_witness :
    FieldLine.out_of_bounds (some (fun _ => -1)) ((1/2 : ℝ), (1/2 : ℝ)) none = -1 :=
  (out_of_bounds_spec (some (fun _ => -1)) ((1/2 : ℝ), (1/2 : ℝ)) ⟨0, 0, 1, 1⟩
    (fun f hf => by cases hf; norm_num)).1

/-- A custom element specified only through its potential `V` (no `f`, no
`F`): the one element kind whose `Field.F` contribution reads the whole
field's potential `self.V` instead of depending on the element alone. -/
def potentialOnly : Element → Prop
  | .custom none none (some _) => True
  | _ => False

theorem contribF_V_irrelevant (el : Element) (h : ¬ potentialOnly el)
    (W1 W2 : Point → ℝ) (xy : Point) :
    Field.contribF W1 el xy = Field.contribF W2 el xy := by
  cases el <;> try rfl
  case custom f Fc Vc =>
    cases f with
    | some g => rfl
    | none =>
      cases Fc with
      | some g => rfl
      | none =>
        cases Vc with
        | some g => simp [potentialOnly] at h
        | none => rfl

theorem padd_zero_left (a : Point) : padd (0, 0) a = a := by
  simp [padd]

theorem padd_assoc (a b c : Point) : padd (padd a b) c = padd a (padd b c) := by
  simp [padd, add_assoc]

theorem foldl_padd_shift (g : Element → Point) (l : List Element) :
    ∀ a : Point, l.foldl (fun acc el => padd acc (g el)) a
      = padd a (l.foldl (fun acc el => padd acc (g el)) (0, 0)) := by
  induction l with
  | nil => intro a; simp [padd]
  | cons x xs ih =>
    intro a
    simp only [List.foldl_cons]
    rw [ih (padd a (g x)), ih (padd (0, 0) (g x)), padd_zero_left, padd_assoc]

theorem foldl_contrib_congr (W1 W2 : Point → ℝ) (xy : Point) (l : List Element)
    (h : ∀ el ∈ l, ¬ potentialOnly el) :
    ∀ a : Point,
      l.foldl (fun acc el => padd acc ((Field.contribF W1 el xy).getD (0, 0))) a =
      l.foldl (fun acc el => padd acc ((Field.contribF W2 el xy).getD (0, 0))) a := by
  induction l with
  | nil => intro a; rfl
  | cons x xs ih =>
    intro a
    simp only [List.foldl_cons]
    rw [contribF_V_irrelevant x (h x (List.mem_cons_self x xs)) W1 W2 xy]
    exact ih (fun el hel => h el (List.mem_cons_of_mem x hel)) _

/-- C1 (amended): `Field.F` is additive over concatenation of the element
list — exactly, not merely within 1e-12 — provided no element is a custom
element given only through its potential.  (Such an element contributes the
finite-difference gradient of the whole field's `self.V`, which changes
under concatenation; see the counterexample.) -/
theorem F_superposition (A B : List Element) (xy : Point)
    (h : ∀ el ∈ A ++ B, ¬ potentialOnly el) :
    Field.F (A ++ B) xy = padd (Field.F A xy) (Field.F B xy) := by
  unfold Field.F
  rw [List.foldl_append]
  rw [foldl_padd_shift (fun el => (Field.contribF (Field.V (A ++ B)) el xy).getD (0, 0)) B]
  rw [foldl_contrib_congr (Field.V (A ++ B)) (Field.V A) xy A
    (fun el hel => h el (List.mem_append_left B hel)) (0, 0)]
  rw [foldl_contrib_congr (Field.V (A ++ B)) (Field.V B) xy B
    (fun el hel => h el (List.mem_append_right A hel)) (0, 0)]

/-- C1 witness: superposition at a concrete two-element instance, a
monopole and a homogeneous field. -/
theorem F_superposition_witness :
    Field.F ([Element.monopole 0 0 1] ++ [Element.homogeneous 1 0]) ((1 : ℝ), (1 : ℝ)) =
      padd (Field.F [Element.monopole 0 0 1] ((1 : ℝ), (1 : ℝ)))
        (Field.F [Element.homogeneous 1 0] ((1 : ℝ), (1 : ℝ))) :=
  F_superposition _ _ _ (by
    intro el hel
    simp only [List.cons_append, List.nil_append, List.mem_cons,
      List.not_mem_nil, or_false] at hel
    rcases hel with h | h <;> subst h <;> simp [potentialOnly])

/-- The element lists of the C1 counterexample: each field holds one custom
element defined only by a potential. -/
def cexA : List Element := [Element.custom none none (some (fun q => q.1))]

/-- Second element list of the C1 counterexample. -/
def cexB : List Element := [Element.custom none none (some (fun _ => 0))]

/-- C1 counterexample: for the fields `cexA` (custom potential `V = x`) and
`cexB` (custom potential `V = 0`), at the origin the field of the
concatenated list is `(-2, 0)` while the separate fields sum to `(-1, 0)`:
each custom element differentiates the total potential of the whole field,
so superposition fails by 1, far beyond 1e-12. -/
theorem F_superposition_cex :
    ¬ (|(Field.F (cexA ++ cexB) ((0 : ℝ), (0 : ℝ))).1 -
        ((Field.F cexA ((0 : ℝ), (0 : ℝ))).1 + (Field.F cexB ((0 : ℝ), (0 : ℝ))).1)| ≤
          1e-12) := by
  have h1 : (Field.F (cexA ++ cexB) ((0 : ℝ), (0 : ℝ))).1 = -2 := by
    simp [Field.F, Field.V, cexA, cexB, Field.contribF, Field.contribV, padd]
    norm_num
  have h2 : (Field.F cexA ((0 : ℝ), (0 : ℝ))).1 = -1 := by
    simp [Field.F, Field.V, cexA, Field.contribF, Field.contribV, padd]
    norm_num
  have h3 : (Field.F cexB ((0 : ℝ), (0 : ℝ))).1 = 0 := by
    simp [Field.F, Field.V, cexB, Field.contribF, Field.contribV, padd]
  rw [h1, h2, h3]
  norm_num

end VFP
